import Mathlib

/-!
Verification of the probing and statistics engine of the Network Response
Tester (src/App.tsx, src/types.ts).

The engine is embedded shallowly:
* The structure PingResult mirrors the record stored in the history (types.ts), with the
  `status` field embedded at the values the application actually writes
  (the strings "OK" and "Error"); `time : Option Nat` models the
  `number | null` elapsed-milliseconds field after Math.round.
* The structure AppState collects the React state cells and refs that the engine
  mutates (host, requestType, isRunning, results, statusMessage,
  testCounterRef, and whether the repeating interval timer is armed).
  The displayed statistics are derived state, recomputed from `results`
  by `computeStats`, so they are not stored in `AppState`.
* The asynchronous environment of one probe is reified as data: a
  `FetchResult` classifies how the HTTPS fetch settled, and a list of
  `ImgSignal`s is the time-ordered sequence of completion callbacks the
  image-load technique observes.
-/

inductive RequestType where
  | HTTPS
  | HTTP
deriving DecidableEq

/-- History entry, from the PingResult interface of types.ts.  The TS type
of `status` is wider (string or number or null) but App.tsx only ever
stores the strings "OK" and "Error" there, so it is embedded as String. -/
structure PingResult where
  id : Nat
  type : RequestType
  time : Option Nat
  status : String
  error : Option String
  timestamp : String
deriving DecidableEq

/-- The argument of addResult in App.tsx: a PingResult with id and
timestamp omitted (they are filled in by addResult itself). -/
structure PingInput where
  type : RequestType
  time : Option Nat
  status : String
  error : Option String
deriving DecidableEq

/-- The three derived statistics (averageLatency, minLatency, maxLatency
state cells); none stands for the null that blanks the display. -/
structure Stats where
  averageLatency : Option Nat
  minLatency : Option Nat
  maxLatency : Option Nat
deriving DecidableEq

/-- The engine-relevant React state of the App component.  intervalArmed
records whether the repeating setInterval timer is currently active. -/
structure AppState where
  host : String
  requestType : RequestType
  isRunning : Bool
  results : List PingResult
  statusMessage : String
  testCounter : Nat
  intervalArmed : Bool
deriving DecidableEq

/-- Initial state of the component, from the useState initializers. -/
def initState : AppState :=
  { host := "google.com"
    requestType := RequestType.HTTPS
    isRunning := false
    results := []
    statusMessage := "Ready to start."
    testCounter := 0
    intervalArmed := false }

/-- JavaScript truth of the negation of the optional error field: in the
filter of the statistics effect the code tests the falsiness of r.error,
which holds when the field is absent or the empty string. -/
def jsFalsyStr : Option String → Bool
  | none => true
  | some s => s == ""

/-- Math.round applied to the exact rational sum / count (count positive):
JavaScript rounds half away from zero, which for nonnegative values is
floor of the value plus one half. -/
def jsRound (sum count : Nat) : Nat := (2 * sum + count) / (2 * count)

/-- Math.min over a spread list; the code only applies it to a nonempty
list (none models the unreachable empty case, where Math.min is Infinity). -/
def jsMin : List Nat → Option Nat
  | [] => none
  | x :: xs => some (xs.foldl min x)

/-- Math.max over a spread list, nonempty in all reachable uses. -/
def jsMax : List Nat → Option Nat
  | [] => none
  | x :: xs => some (xs.foldl max x)

/-- The statistics useEffect of App.tsx: filter the history to entries
with a time and a falsy error; with two or more such entries, drop the
last (the oldest, since results are newest-first), and set average to the
rounded mean and min and max over the remaining times; otherwise null out
all three statistics. -/
def computeStats (results : List PingResult) : Stats :=
  let successfulTests := results.filter (fun r => r.time.isSome && jsFalsyStr r.error)
  if 1 < successfulTests.length then
    let testsForCalculation := successfulTests.dropLast
    let times := testsForCalculation.map (fun r => r.time.getD 0)
    let totalTime := times.foldl (fun acc t => acc + t) 0
    { averageLatency := some (jsRound totalTime testsForCalculation.length)
      minLatency := jsMin times
      maxLatency := jsMax times }
  else
    { averageLatency := none, minLatency := none, maxLatency := none }

/-- Modelled from the spec wording of the Statistics Calculator contract:
filter the history to successful outcomes, meaning status "OK" with the
elapsed time present; with fewer than two such outcomes return all null;
otherwise exclude the single oldest successful outcome (the last in
newest-first order) and return the rounded mean, exact min and exact max
of the remaining elapsed times.  Used only as the reference side of the
refinement claim about computeStats. -/
def computeStatsSpec (history : List PingResult) : Stats :=
  let successes := history.filter (fun r => r.status == "OK" && r.time.isSome)
  if successes.length < 2 then
    { averageLatency := none, minLatency := none, maxLatency := none }
  else
    let remaining := successes.dropLast
    let times := remaining.map (fun r => r.time.getD 0)
    { averageLatency := some (jsRound (times.foldl (fun acc t => acc + t) 0) remaining.length)
      minLatency := jsMin times
      maxLatency := jsMax times }

/-- The record literal built inside addResult: the probe outcome extended
with the current counter value as id and the wall-clock timestamp. -/
def mkEntry (c : Nat) (r : PingInput) (ts : String) : PingResult :=
  { id := c, type := r.type, time := r.time, status := r.status
    error := r.error, timestamp := ts }

/-- addResult of App.tsx: prepend the new entry (with id from the
post-incremented testCounterRef) and keep the first forty entries. -/
def addResult (s : AppState) (r : PingInput) (ts : String) : AppState :=
  { s with
    results := (mkEntry s.testCounter r ts :: s.results).take 40
    testCounter := s.testCounter + 1 }

/-- A sequence of appends applied in order (each pair is the probe outcome
and its display timestamp). -/
def runAppends (s : AppState) : List (PingInput × String) → AppState
  | [] => s
  | (r, ts) :: rest => runAppends (addResult s r ts) rest

/-- The entries a sequence of appends creates, oldest first, when the
counter starts at c: ids are handed out consecutively from c. -/
def entriesFrom (c : Nat) : List (PingInput × String) → List PingResult
  | [] => []
  | (r, ts) :: rest => mkEntry c r ts :: entriesFrom (c + 1) rest

/-- handleStartStop of App.tsx, the single start and stop entry point:
while running it clears the interval and stops; while idle it rejects an
empty host with a status message and otherwise clears the history, resets
the counter, marks the run active and arms the repeating timer (the
immediate first runTest call is asynchronous and mutates no state
synchronously). -/
def handleStartStop (s : AppState) : AppState :=
  if s.isRunning then
    { s with
      intervalArmed := false
      isRunning := false
      statusMessage := "Stopped by user." }
  else
    if s.host = "" then
      { s with statusMessage := "Error: Host cannot be empty." }
    else
      { s with
        results := []
        testCounter := 0
        isRunning := true
        statusMessage := "Starting tests..."
        intervalArmed := true }

/-- The fixed timeout constant of runTest. -/
def timeoutMs : Nat := 2000

/-- How the HTTPS fetch of runTest settled: resolved before the abort
(elapsed is the rounded duration), rejected with the AbortError raised by
the 2000 ms timeout timer, rejected with another Error instance, or
rejected with a non-Error value. -/
inductive FetchResult where
  | resolved (elapsed : Nat)
  | abortError
  | otherError
  | nonErrorRejection
deriving DecidableEq

/-- The HTTPS branch of runTest: the probe outcome passed to addResult for
each way the fetch can settle. -/
def runTestHttps (ty : RequestType) (res : FetchResult) : PingInput :=
  match res with
  | FetchResult.resolved e =>
      { type := ty, time := some e, status := "OK", error := none }
  | FetchResult.abortError =>
      { type := ty, time := none, status := "Error"
        error := some ("Timeout (" ++ toString timeoutMs ++ "ms)") }
  | FetchResult.otherError =>
      { type := ty, time := none, status := "Error"
        error := some "Failed. Check host, network, or console for errors." }
  | FetchResult.nonErrorRejection =>
      { type := ty, time := none, status := "Error", error := some "Request failed." }

/-- recordResult of the HTTP branch of runTest (the payload it hands to
addResult; the done guard around it is modelled in processSignals): a
success with a time is recorded as is without an error field, anything
else is recorded with a null time and the given error. -/
def recordResult (ty : RequestType) (time : Option Nat) (status : String)
    (error : Option String) : PingInput :=
  if status == "OK" && time.isSome then
    { type := ty, time := time, status := status, error := none }
  else
    { type := ty, time := none, status := status, error := error }

/-- handleSuccess of the HTTP branch: record the rounded elapsed time as a
successful outcome. -/
def handleSuccess (ty : RequestType) (elapsed : Nat) : PingInput :=
  recordResult ty (some elapsed) "OK" none

/-- A completion signal of one image-load probe: the onload callback, the
onerror callback (each with the rounded elapsed time at which it fired),
or the 2000 ms timeout timer. -/
inductive ImgSignal where
  | load (elapsed : Nat)
  | imgError (elapsed : Nat)
  | timedOut
deriving DecidableEq

/-- The outcome each signal records: onload and onerror are both wired to
handleSuccess, the timeout timer records the timeout error. -/
def signalCall (ty : RequestType) : ImgSignal → PingInput
  | ImgSignal.load e => handleSuccess ty e
  | ImgSignal.imgError e => handleSuccess ty e
  | ImgSignal.timedOut =>
      recordResult ty none "Error" (some ("Timeout (" ++ toString timeoutMs ++ "ms)"))

/-- One signal arriving at the done guard of recordResult: when done is
already set the signal returns without recording; otherwise done is set
and the signal's outcome is emitted. -/
def stepSignal (ty : RequestType) (st : Bool × List PingInput) (sig : ImgSignal) :
    Bool × List PingInput :=
  if st.1 then st else (true, st.2 ++ [signalCall ty sig])

/-- The outcomes one image-load probe invocation appends, given the
time-ordered sequence of completion signals it observes: the done flag
starts false and the signals are processed in order. -/
def processSignals (ty : RequestType) (sigs : List ImgSignal) : List PingInput :=
  (sigs.foldl (stepSignal ty) (false, [])).2

/-- Well-formedness of a stored outcome: the elapsed time is present
exactly when the status is not "Error", a successful outcome carries no
error message, and an outcome with an error message carries no time. -/
def wfOutcome (r : PingResult) : Bool :=
  (r.time.isSome == !(r.status == "Error"))
  && (!(r.status == "OK") || r.error.isNone)
  && (r.error.isNone || r.time.isNone)

/-- Well-formedness of a probe outcome before id and timestamp are added. -/
def wfInput (p : PingInput) : Bool :=
  (p.time.isSome == !(p.status == "Error"))
  && (!(p.status == "OK") || p.error.isNone)
  && (p.error.isNone || p.time.isNone)

/-- Well-formedness of every entry of a history. -/
def wfHistory (l : List PingResult) : Bool := l.all wfOutcome

/-- Strong well-formedness: well-formed and the status is one of the two
values the application writes. -/
def wfStrict (r : PingResult) : Bool :=
  wfOutcome r && (r.status == "OK" || r.status == "Error")

/-- Concrete successful history entry used in witnesses and scenarios. -/
def sampleEntry (i t : Nat) : PingResult :=
  { id := i, type := RequestType.HTTPS, time := some t, status := "OK"
    error := none, timestamp := "" }

/-- The scenario history of the spec: successful elapsed times 120, 80,
150, 100 newest-first, so the oldest (last) is 100. -/
def sampleHistory : List PingResult :=
  [sampleEntry 3 120, sampleEntry 2 80, sampleEntry 1 150, sampleEntry 0 100]

/-- A concrete successful probe outcome. -/
def okInput : PingInput :=
  { type := RequestType.HTTPS, time := some 100, status := "OK", error := none }

/-- A second, distinguishable successful probe outcome. -/
def okInputB : PingInput :=
  { type := RequestType.HTTPS, time := some 200, status := "OK", error := none }

/-- A state whose history already holds exactly forty entries. -/
def fullState : AppState :=
  { initState with
    results := (List.range 40).map (fun i => sampleEntry i 100)
    testCounter := 40 }

/-- Forty-five consecutive successful appends. -/
def sample45 : List (PingInput × String) := List.replicate 45 (okInput, "t")

/-- A state in which a run is active and the timer armed. -/
def runningState : AppState := { initState with isRunning := true, intervalArmed := true }

/-- An idle state whose host field is empty. -/
def emptyHostState : AppState := { initState with host := "" }

/-! Helper lemmas shared by several claims. -/

theorem all_take {α : Type*} (p : α → Bool) (n : Nat) (l : List α) (h : l.all p = true) :
    (l.take n).all p = true := by
  rw [List.all_eq_true] at h ⊢
  exact fun x hx => h x (List.take_subset n l hx)

theorem take_append_take {α : Type*} (A B : List α) (n : Nat) :
    (A ++ B.take n).take n = (A ++ B).take n := by
  rw [List.take_append_eq_append_take, List.take_append_eq_append_take, List.take_take]
  have hmin : (n - A.length) ⊓ n = n - A.length := by omega
  rw [hmin]

theorem entriesFrom_length (l : List (PingInput × String)) :
    ∀ c, (entriesFrom c l).length = l.length := by
  induction l with
  | nil => intro c; rfl
  | cons p rest ih =>
      intro c
      obtain ⟨r, ts⟩ := p
      simp [entriesFrom, ih]

theorem entriesFrom_ids (l : List (PingInput × String)) :
    ∀ c, (entriesFrom c l).map (fun r => r.id) = List.range' c l.length := by
  induction l with
  | nil => intro c; rfl
  | cons p rest ih =>
      intro c
      obtain ⟨r, ts⟩ := p
      simp [entriesFrom, mkEntry, ih, List.range'_succ]

theorem runAppends_results (l : List (PingInput × String)) :
    ∀ s : AppState, s.results.length ≤ 40 →
      (runAppends s l).results = ((entriesFrom s.testCounter l).reverse ++ s.results).take 40 := by
  induction l with
  | nil =>
      intro s hs
      simp [runAppends, entriesFrom, List.take_of_length_le hs]
  | cons p rest ih =>
      intro s hs
      obtain ⟨r, ts⟩ := p
      have hlen : (addResult s r ts).results.length ≤ 40 := by
        simp [addResult, List.length_take]
      rw [runAppends, ih (addResult s r ts) hlen]
      show ((entriesFrom (s.testCounter + 1) rest).reverse ++
          (mkEntry s.testCounter r ts :: s.results).take 40).take 40 = _
      rw [take_append_take]
      simp [entriesFrom, List.append_assoc]

theorem wf_filter_eq (results : List PingResult)
    (h : results.all wfStrict = true) :
    results.filter (fun r => r.time.isSome && jsFalsyStr r.error)
      = results.filter (fun r => r.status == "OK" && r.time.isSome) := by
  apply List.filter_congr
  intro r hr
  have hw : wfStrict r = true := (List.all_eq_true.mp h) r hr
  obtain ⟨i, ty, time, status, error, ts⟩ := r
  simp only [wfStrict, wfOutcome, Bool.and_eq_true, Bool.or_eq_true, beq_iff_eq] at hw
  cases time <;> cases error <;>
    simp_all [jsFalsyStr]
  tauto

theorem stats_refines_aux (results : List PingResult) (h : results.all wfStrict = true) :
    computeStats results = computeStatsSpec results := by
  simp only [computeStats, computeStatsSpec]
  rw [wf_filter_eq results h]
  by_cases h2 : 1 < (results.filter (fun r => r.status == "OK" && r.time.isSome)).length
  · rw [if_pos h2, if_neg (by omega)]
  · rw [if_neg h2, if_pos (by omega)]

/-- C1: the statistics computation agrees with the reference definition of
the spec on every well-formed history (filter to successful outcomes; all
null below two successes; otherwise drop exactly the single oldest
success and return the rounded mean and exact min and max of the
remaining elapsed times), and on the scenario history with successful
elapsed times 120, 80, 150, 100 (oldest last) it yields average 117, min
80, max 150. -/
theorem compute_matches_reference :
    (∀ results : List PingResult, results.all wfStrict = true →
      computeStats results = computeStatsSpec results) ∧
    computeStats sampleHistory =
      { averageLatency := some 117, minLatency := some 80, maxLatency := some 150 } := by
  constructor
  · exact fun results h => stats_refines_aux results h
  · decide

/-- Witness for C1 at the scenario history. -/
theorem compute_matches_reference_witness :
    sampleHistory.all wfStrict = true ∧
    computeStats sampleHistory = computeStatsSpec sampleHistory :=
  ⟨by decide, compute_matches_reference.1 sampleHistory (by decide)⟩

/-- C2: one append never leaves more than forty entries; an append onto a
forty-entry history prepends the new entry and evicts exactly the oldest
(tail) entry; and forty-five consecutive appends from the initial empty
state leave exactly forty entries, namely the forty most recently
appended outcomes in newest-first order. -/
theorem history_capacity :
    (∀ (s : AppState) (r : PingInput) (ts : String),
      ((addResult s r ts).results).length ≤ 40) ∧
    (∀ (s : AppState) (r : PingInput) (ts : String), s.results.length = 40 →
      (addResult s r ts).results = mkEntry s.testCounter r ts :: s.results.dropLast) ∧
    (∀ l : List (PingInput × String), l.length = 45 →
      (runAppends initState l).results.length = 40 ∧
      (runAppends initState l).results = ((entriesFrom 0 l).reverse).take 40) := by
  refine ⟨?_, ?_, ?_⟩
  · intro s r ts
    simp [addResult, List.length_take]
  · intro s r ts h40
    show (mkEntry s.testCounter r ts :: s.results).take 40 = _
    rw [List.dropLast_eq_take, h40]
    show List.take (39 + 1) _ = _
    rw [List.take_succ_cons]
  · intro l h45
    have hres := runAppends_results l initState (by simp [initState])
    have hids : (entriesFrom 0 l).length = l.length := entriesFrom_length l 0
    constructor
    · rw [hres]
      simp [initState, List.length_take, hids, h45]
    · rw [hres]
      simp [initState]

/-- Witness for C2 at a full forty-entry state and a forty-five append run. -/
theorem history_capacity_witness :
    fullState.results.length = 40 ∧ sample45.length = 45 ∧
    ((addResult fullState okInput "t").results).length ≤ 40 ∧
    (addResult fullState okInput "t").results =
      mkEntry fullState.testCounter okInput "t" :: fullState.results.dropLast ∧
    (runAppends initState sample45).results.length = 40 :=
  ⟨by decide, by decide,
   history_capacity.1 fullState okInput "t",
   history_capacity.2.1 fullState okInput "t" (by decide),
   (history_capacity.2.2 sample45 (by decide)).1⟩

/-- C3 counterexample: the code exposes only the combined handleStartStop
entry point, so invoking the stop side while Idle is invoking that
handler in the Idle state — and doing so does not leave the state
unchanged and raises no InvalidTransition error: from the initial idle
state it starts a run, arms the interval timer and reports that tests are
starting; symmetrically, invoking the handler while Running (the only way
to request a start during a run) stops the run instead of erroring. -/
theorem toggle_idle_counterexample :
    (handleStartStop initState).isRunning = true ∧
    (handleStartStop initState).intervalArmed = true ∧
    (handleStartStop initState).statusMessage = "Starting tests..." ∧
    handleStartStop initState ≠ initState ∧
    (handleStartStop runningState).isRunning = false ∧
    handleStartStop runningState ≠ runningState := by decide

/-- C3 amended: the code has a single start and stop toggle rather than
separate commands, so start-while-Running and stop-while-Idle cannot be
expressed and no InvalidTransition error exists.  Invoked while Running
the handler always stops the run and clears the timer; invoked while Idle
with an empty host it only sets a validation message; invoked while Idle
with a nonempty host it resets the history and counter, becomes Running,
and arms the timer. -/
theorem toggle_semantics :
    (∀ s : AppState, s.isRunning = true →
      handleStartStop s =
        { s with isRunning := false, intervalArmed := false,
                 statusMessage := "Stopped by user." }) ∧
    (∀ s : AppState, s.isRunning = false → s.host = "" →
      handleStartStop s = { s with statusMessage := "Error: Host cannot be empty." }) ∧
    (∀ s : AppState, s.isRunning = false → s.host ≠ "" →
      handleStartStop s =
        { s with results := [], testCounter := 0, isRunning := true,
                 statusMessage := "Starting tests...", intervalArmed := true }) := by
  refine ⟨?_, ?_, ?_⟩
  · intro s h
    simp [handleStartStop, h]
  · intro s h1 h2
    simp [handleStartStop, h1, h2]
  · intro s h1 h2
    simp [handleStartStop, h1, h2]

/-- Witness for C3 amended at concrete running, empty-host and idle states. -/
theorem toggle_semantics_witness :
    handleStartStop runningState =
      { runningState with isRunning := false, intervalArmed := false,
                          statusMessage := "Stopped by user." } ∧
    handleStartStop emptyHostState =
      { emptyHostState with statusMessage := "Error: Host cannot be empty." } ∧
    handleStartStop initState =
      { initState with results := [], testCounter := 0, isRunning := true,
                       statusMessage := "Starting tests...", intervalArmed := true } :=
  ⟨toggle_semantics.1 runningState rfl,
   toggle_semantics.2.1 emptyHostState rfl rfl,
   toggle_semantics.2.2 initState rfl (by decide)⟩

/-- C4: starting with an empty host only sets the validation status
message; the run state stays idle, the history, counter and timer are
untouched. -/
theorem start_empty_host_rejected :
    ∀ s : AppState, s.isRunning = false → s.host = "" →
      handleStartStop s = { s with statusMessage := "Error: Host cannot be empty." } ∧
      (handleStartStop s).isRunning = false ∧
      (handleStartStop s).results = s.results ∧
      (handleStartStop s).testCounter = s.testCounter ∧
      (handleStartStop s).intervalArmed = s.intervalArmed := by
  intro s h1 h2
  have h : handleStartStop s = { s with statusMessage := "Error: Host cannot be empty." } := by
    simp [handleStartStop, h1, h2]
  refine ⟨h, ?_, ?_, ?_, ?_⟩ <;> rw [h]
  exact h1

/-- Witness for C4 at the concrete idle empty-host state. -/
theorem start_empty_host_rejected_witness :
    handleStartStop emptyHostState =
      { emptyHostState with statusMessage := "Error: Host cannot be empty." } ∧
    (handleStartStop emptyHostState).isRunning = false ∧
    (handleStartStop emptyHostState).results = emptyHostState.results ∧
    (handleStartStop emptyHostState).testCounter = emptyHostState.testCounter ∧
    (handleStartStop emptyHostState).intervalArmed = emptyHostState.intervalArmed :=
  start_empty_host_rejected emptyHostState rfl rfl

/-- C5 counterexample: the sequence id of an outcome is computed by
addResult from the store counter at append (completion) time, not carried
from issue time: the same probe outcome appended at counter seven gets id
seven and at counter zero gets id zero, and when two probes complete in
the opposite of their issue order the one appended first still receives
the smaller id (the histories below list ids newest-first). -/
theorem id_assignment_counterexample :
    ((addResult { initState with testCounter := 7 } okInput "t").results.map
      (fun r => r.id)) = [7] ∧
    ((addResult initState okInput "t").results.map (fun r => r.id)) = [0] ∧
    ((runAppends initState [(okInput, "t1"), (okInputB, "t2")]).results.map
      (fun r => r.id)) = [1, 0] ∧
    ((runAppends initState [(okInputB, "t1"), (okInput, "t2")]).results.map
      (fun r => r.id)) = [1, 0] ∧
    ((runAppends initState [(okInputB, "t1"), (okInput, "t2")]).results.map
      (fun r => r.time)) = [some 100, some 200] := by decide

/-- C5 amended: sequence ids are assigned by addResult at append
(completion) time from the store counter; within one run the appended
outcomes receive ids zero, one, two and so on in append order — strictly
increasing with no gaps starting at zero — the retained history carries
them newest-first, and a new run start resets the counter to zero and
clears the history. -/
theorem sequence_ids_in_run :
    (∀ l : List (PingInput × String),
      (entriesFrom 0 l).map (fun r => r.id) = List.range l.length) ∧
    (∀ l : List (PingInput × String),
      (runAppends initState l).results.map (fun r => r.id) =
        ((List.range l.length).reverse).take 40) ∧
    (∀ s : AppState, s.isRunning = false → s.host ≠ "" →
      (handleStartStop s).testCounter = 0 ∧ (handleStartStop s).results = []) := by
  refine ⟨?_, ?_, ?_⟩
  · intro l
    rw [List.range_eq_range']
    exact entriesFrom_ids l 0
  · intro l
    have hres := runAppends_results l initState (by simp [initState])
    rw [hres]
    simp only [initState, List.append_nil]
    rw [List.map_take, List.map_reverse, entriesFrom_ids l 0, List.range_eq_range']
  · intro s h1 h2
    constructor <;> simp [handleStartStop, h1, h2]

/-- Witness for C5 amended at the forty-five append run and the initial state. -/
theorem sequence_ids_in_run_witness :
    (entriesFrom 0 sample45).map (fun r => r.id) = List.range sample45.length ∧
    (handleStartStop initState).testCounter = 0 ∧
    (handleStartStop initState).results = [] :=
  ⟨sequence_ids_in_run.1 sample45,
   sequence_ids_in_run.2.2 initState rfl (by decide)⟩

/-- C6: the timeout is the fixed constant 2000 for both techniques; a
timed-out HTTPS probe (the fetch rejected by the abort) and a timed-out
image probe (the timeout timer firing first) both record status Error
with message Timeout (2000ms) and no elapsed time; and an append never
changes the run state, the timer or the host, so a recorded failure does
not interrupt the run. -/
theorem probe_timeout_outcome :
    timeoutMs = 2000 ∧
    (∀ ty : RequestType, runTestHttps ty FetchResult.abortError =
      { type := ty, time := none, status := "Error", error := some "Timeout (2000ms)" }) ∧
    (∀ ty : RequestType, signalCall ty ImgSignal.timedOut =
      { type := ty, time := none, status := "Error", error := some "Timeout (2000ms)" }) ∧
    (∀ (s : AppState) (p : PingInput) (ts : String),
      (addResult s p ts).isRunning = s.isRunning ∧
      (addResult s p ts).intervalArmed = s.intervalArmed ∧
      (addResult s p ts).host = s.host) :=
  ⟨rfl, fun _ => rfl, fun _ => rfl, fun _ _ _ => ⟨rfl, rfl, rfl⟩⟩

/-- C7: for the image-load technique both the load callback and the error
callback record a successful outcome carrying the measured elapsed time,
and among the three completion signals only the timeout records an Error
status. -/
theorem plain_callbacks_success :
    (∀ (ty : RequestType) (e : Nat), signalCall ty (ImgSignal.load e) =
      { type := ty, time := some e, status := "OK", error := none }) ∧
    (∀ (ty : RequestType) (e : Nat), signalCall ty (ImgSignal.imgError e) =
      { type := ty, time := some e, status := "OK", error := none }) ∧
    (∀ (ty : RequestType) (sig : ImgSignal),
      (signalCall ty sig).status = "Error" ↔ sig = ImgSignal.timedOut) := by
  refine ⟨fun ty e => rfl, fun ty e => rfl, fun ty sig => ?_⟩
  cases sig <;> simp [signalCall, handleSuccess, recordResult]

/-- C8: every outcome either technique can produce is well formed (the
elapsed time is present exactly when the status is not Error, a success
carries no error message, an outcome with an error message carries no
time), and addResult preserves well-formedness of the whole history. -/
theorem outcome_wellformed_preserved :
    (∀ (ty : RequestType) (res : FetchResult), wfInput (runTestHttps ty res) = true) ∧
    (∀ (ty : RequestType) (sig : ImgSignal), wfInput (signalCall ty sig) = true) ∧
    (∀ (s : AppState) (p : PingInput) (ts : String), wfInput p = true →
      wfHistory s.results = true → wfHistory (addResult s p ts).results = true) := by
  refine ⟨?_, ?_, ?_⟩
  · intro ty res
    cases res <;> rfl
  · intro ty sig
    cases sig <;> rfl
  · intro s p ts hp hh
    show ((mkEntry s.testCounter p ts :: s.results).take 40).all wfOutcome = true
    apply all_take
    rw [List.all_cons]
    have hmk : wfOutcome (mkEntry s.testCounter p ts) = wfInput p := rfl
    rw [hmk, hp]
    show (true && s.results.all wfOutcome) = true
    rw [Bool.true_and]
    exact hh

/-- Witness for C8: the history after appending a timed-out HTTPS outcome
to the initial state is well formed. -/
theorem outcome_wellformed_preserved_witness :
    wfInput (runTestHttps RequestType.HTTPS FetchResult.abortError) = true ∧
    wfHistory initState.results = true ∧
    wfHistory (addResult initState
      (runTestHttps RequestType.HTTPS FetchResult.abortError) "t").results = true :=
  ⟨by decide, by decide,
   outcome_wellformed_preserved.2.2 initState
     (runTestHttps RequestType.HTTPS FetchResult.abortError) "t" (by decide) (by decide)⟩

theorem foldl_stepSignal_done (ty : RequestType) (out : List PingInput) :
    ∀ sigs : List ImgSignal, sigs.foldl (stepSignal ty) (true, out) = (true, out) := by
  intro sigs
  induction sigs with
  | nil => rfl
  | cons s rest ih =>
      rw [List.foldl_cons]
      show rest.foldl (stepSignal ty) (true, out) = (true, out)
      exact ih

/-- C9: one image-load probe invocation appends at most one outcome, and
when at least one completion signal fires only the first signal is
recorded — every later load, error or timeout signal of the same
invocation is suppressed by the done guard. -/
theorem single_completion_guard :
    (∀ (ty : RequestType) (sigs : List ImgSignal), (processSignals ty sigs).length ≤ 1) ∧
    (∀ (ty : RequestType) (sig : ImgSignal) (rest : List ImgSignal),
      processSignals ty (sig :: rest) = [signalCall ty sig]) := by
  have hone : ∀ (ty : RequestType) (sig : ImgSignal) (rest : List ImgSignal),
      processSignals ty (sig :: rest) = [signalCall ty sig] := by
    intro ty sig rest
    show ((sig :: rest).foldl (stepSignal ty) (false, [])).2 = _
    rw [List.foldl_cons]
    show (rest.foldl (stepSignal ty) (true, [signalCall ty sig])).2 = _
    rw [foldl_stepSignal_done]
  refine ⟨?_, hone⟩
  intro ty sigs
  cases sigs with
  | nil => exact Nat.zero_le 1
  | cons sig rest =>
      rw [hone ty sig rest]
      exact le_refl 1

theorem foldl_min_le_init (xs : List Nat) : ∀ a : Nat, xs.foldl min a ≤ a := by
  induction xs with
  | nil => intro a; exact le_refl a
  | cons b bs ih => intro a; exact le_trans (ih (min a b)) (min_le_left a b)

theorem init_le_foldl_max (xs : List Nat) : ∀ a : Nat, a ≤ xs.foldl max a := by
  induction xs with
  | nil => intro a; exact le_refl a
  | cons b bs ih => intro a; exact le_trans (le_max_left a b) (ih (max a b))

theorem foldl_min_le_mem (xs : List Nat) :
    ∀ a y : Nat, y ∈ a :: xs → xs.foldl min a ≤ y := by
  induction xs with
  | nil =>
      intro a y hy
      rw [List.mem_singleton] at hy
      rw [hy]
      exact le_refl a
  | cons b bs ih =>
      intro a y hy
      show bs.foldl min (min a b) ≤ y
      rcases List.mem_cons.mp hy with h | h
      · exact le_trans (foldl_min_le_init bs (min a b)) (h ▸ min_le_left a b)
      · rcases List.mem_cons.mp h with h2 | h2
        · exact le_trans (foldl_min_le_init bs (min a b)) (h2 ▸ min_le_right a b)
        · exact ih (min a b) y (List.mem_cons_of_mem (min a b) h2)

theorem mem_le_foldl_max (xs : List Nat) :
    ∀ a y : Nat, y ∈ a :: xs → y ≤ xs.foldl max a := by
  induction xs with
  | nil =>
      intro a y hy
      rw [List.mem_singleton] at hy
      rw [hy]
      exact le_refl a
  | cons b bs ih =>
      intro a y hy
      show y ≤ bs.foldl max (max a b)
      rcases List.mem_cons.mp hy with h | h
      · exact le_trans (h ▸ le_max_left a b) (init_le_foldl_max bs (max a b))
      · rcases List.mem_cons.mp h with h2 | h2
        · exact le_trans (h2 ▸ le_max_right a b) (init_le_foldl_max bs (max a b))
        · exact ih (max a b) y (List.mem_cons_of_mem (max a b) h2)

theorem mul_length_le_sum (l : List Nat) (m : Nat) (h : ∀ y ∈ l, m ≤ y) :
    m * l.length ≤ l.sum := by
  induction l with
  | nil => simp
  | cons x xs ih =>
      rw [List.sum_cons, List.length_cons, Nat.mul_succ]
      have h1 := h x (List.mem_cons_self x xs)
      have h2 := ih (fun y hy => h y (List.mem_cons_of_mem x hy))
      omega

theorem sum_le_mul_length (l : List Nat) (M : Nat) (h : ∀ y ∈ l, y ≤ M) :
    l.sum ≤ M * l.length := by
  induction l with
  | nil => simp
  | cons x xs ih =>
      rw [List.sum_cons, List.length_cons, Nat.mul_succ]
      have h1 := h x (List.mem_cons_self x xs)
      have h2 := ih (fun y hy => h y (List.mem_cons_of_mem x hy))
      omega

theorem le_jsRound_of (s n m : Nat) (hn : 0 < n) (h : m * n ≤ s) : m ≤ jsRound s n := by
  unfold jsRound
  have h2n : 0 < 2 * n := by omega
  have h1 : m * (2 * n) ≤ 2 * s + n := by nlinarith
  calc m = m * (2 * n) / (2 * n) := (Nat.mul_div_cancel m h2n).symm
    _ ≤ (2 * s + n) / (2 * n) := Nat.div_le_div_right h1

theorem jsRound_le_of (s n M : Nat) (hn : 0 < n) (h : s ≤ M * n) : jsRound s n ≤ M := by
  unfold jsRound
  have h2n : 0 < 2 * n := by omega
  have hlt : 2 * s + n < (M + 1) * (2 * n) := by nlinarith
  have := (Nat.div_lt_iff_lt_mul h2n).mpr hlt
  omega

theorem foldl_add_eq_sum (l : List Nat) :
    ∀ c : Nat, l.foldl (fun acc t => acc + t) c = c + l.sum := by
  induction l with
  | nil => intro c; simp
  | cons x xs ih =>
      intro c
      rw [List.foldl_cons, ih, List.sum_cons]
      omega

/-- C10: whenever the statistics computation returns non-null results,
the returned values satisfy min at most average and average at most max:
the rounded mean of the retained elapsed-time set lies between that set's
minimum and maximum. -/
theorem stats_min_le_avg_le_max :
    ∀ (results : List PingResult) (a mn mx : Nat),
      computeStats results =
        { averageLatency := some a, minLatency := some mn, maxLatency := some mx } →
      mn ≤ a ∧ a ≤ mx := by
  intro results a mn mx h
  simp only [computeStats] at h
  set L := results.filter (fun r => r.time.isSome && jsFalsyStr r.error) with hLdef
  split at h
  case isTrue hlen =>
    set times := L.dropLast.map (fun r => r.time.getD 0) with htimesdef
    have hcount : L.dropLast.length = times.length := by
      rw [htimesdef, List.length_map]
    have hlen2 : 0 < times.length := by
      rw [htimesdef, List.length_map, List.length_dropLast]
      omega
    have hne : times ≠ [] := List.ne_nil_of_length_pos hlen2
    obtain ⟨x, xs, hcons⟩ := List.exists_cons_of_ne_nil hne
    rw [Stats.mk.injEq] at h
    obtain ⟨h1, h2, h3⟩ := h
    rw [hcons] at h2 h3
    have hmn : mn = xs.foldl min x := by
      simp only [jsMin, Option.some.injEq] at h2
      exact h2.symm
    have hmx : mx = xs.foldl max x := by
      simp only [jsMax, Option.some.injEq] at h3
      exact h3.symm
    rw [Option.some.injEq] at h1
    have ha : a = jsRound times.sum times.length := by
      rw [← h1, foldl_add_eq_sum, Nat.zero_add, hcount]
    have hmem_min : ∀ y ∈ times, mn ≤ y := by
      rw [hcons, hmn]
      exact fun y hy => foldl_min_le_mem xs x y hy
    have hmem_max : ∀ y ∈ times, y ≤ mx := by
      rw [hcons, hmx]
      exact fun y hy => mem_le_foldl_max xs x y hy
    have hlow : mn * times.length ≤ times.sum := mul_length_le_sum times mn hmem_min
    have hhigh : times.sum ≤ mx * times.length := sum_le_mul_length times mx hmem_max
    exact ⟨ha ▸ le_jsRound_of times.sum times.length mn hlen2 hlow,
           ha ▸ jsRound_le_of times.sum times.length mx hlen2 hhigh⟩
  case isFalse hlen =>
    rw [Stats.mk.injEq] at h
    exact absurd h.1 (by simp)

/-- Witness for C10 at the scenario history, whose statistics are average
117, min 80, max 150. -/
theorem stats_min_le_avg_le_max_witness :
    computeStats sampleHistory =
      { averageLatency := some 117, minLatency := some 80, maxLatency := some 150 } ∧
    (80 : Nat) ≤ 117 ∧ (117 : Nat) ≤ 150 :=
  ⟨by decide, stats_min_le_avg_le_max sampleHistory 117 80 150 (by decide)⟩
